import Mathlib

/-!
Verification of the cfganalyze configuration-file analyzer.

The analyzer compares a local "working" configuration file against a
"master" configuration file (local, or fetched from a remote host over
ssh/scp), reporting keys present in the master but missing from the
working file, and value differences between shared keys.

The orchestration layer (`newAnalyzer`, `connect`, `read`, `ScanJson`,
`PrintJson`, `ScanEnv`, `PrintEnv`) is embedded directly from
`analyzer.go`.  The format extractors (JSON and Env parsing), the
scan/equality/diff algorithms and the ssh/scp transport live in files of
the repository that are not available here; those are modelled from the
design document and marked `Modelled from the spec:` in their doc
comments.

Effects (local file system, ssh reachability, scp fetches) are embedded
as an explicit read-only `World`; printing is embedded as a returned
list of `Output` events; the Go `error` results become an explicit
`CfgError` sum carrying the offending path or host, as prescribed by the
design document's error taxonomy.
-/

/-- Configuration for one analyzer invocation: path of the local working
file, path of the master file, and an optional ssh host alias (empty
string means no remote host). -/
structure Config where
  WorkingPath : String
  MasterPath : String
  HostAlias : String
  deriving Repr, DecidableEq

/-- Typed errors of the analyzer, following the design document's error
taxonomy.  `ioError p` models the `fmt.Errorf("could not open %s. %s", p, err)`
values produced by `analyzer.read`; `connectionError h` the
`fmt.Errorf("could not connect to host %s. %s", h, err)` value constructed in
`analyzer.connect`; `parseError p` a JSON parse failure for file `p`. -/
inductive CfgError where
  | connectionError (host : String)
  | ioError (path : String)
  | parseError (path : String)
  deriving Repr, DecidableEq

/-- The external world an invocation runs against: contents of local
files (`none` when a path cannot be read), whether an ssh connection to
a host alias succeeds, and the bytes an scp fetch of a remote path from
a host returns (`none` when the fetch fails).  File contents are
embedded as strings of UTF-8 text. -/
structure World where
  localFiles : String → Option String
  sshOk : String → Bool
  scpFiles : String → String → Option String

/-- The `analyzer` struct of `analyzer.go`: raw bytes of the two files,
the bash/ssh handle (`none` models the nil pointer; `some h` models a
`bash` value built by `newBash h`), and the missing/different key lists
filled in by scanning.  The defaults are Go's zero values. -/
structure analyzer where
  working : String := ""
  master : String := ""
  bash : Option String := none
  missing : List String := []
  different : List String := []
  deriving Repr, DecidableEq

/-- Embeds `analyzer.connect` (analyzer.go lines 122-131): it stores a
new bash handle for the host, attempts the ssh connection, and — when
the attempt fails — constructs an error value with `fmt.Errorf` whose
result is discarded (the statement has no effect).  The method then
returns nil unconditionally.  The discarded error is kept as a dead
local binding so the embedding mirrors the source line by line. -/
def analyzer.connect (w : World) (a : analyzer) (hostAlias : String) :
    analyzer × Option CfgError :=
  let a := { a with bash := some hostAlias }
  let _discardedErr : Option CfgError :=
    if w.sshOk hostAlias then none
    else some (CfgError.connectionError hostAlias)
  (a, none)

/-- Embeds `analyzer.read` (analyzer.go lines 134-158): read the working
file from local disk; then, if a bash handle is present, fetch the
master file via scp from the remote host, otherwise read the master file
from local disk.  Every failure aborts with an error embedding the
offending path. -/
def analyzer.read (w : World) (a : analyzer) (workingPath masterPath : String) :
    Except CfgError analyzer :=
  match w.localFiles workingPath with
  | none => .error (.ioError workingPath)
  | some wb =>
    match a.bash with
    | some host =>
      match w.scpFiles host masterPath with
      | none => .error (.ioError masterPath)
      | some mb => .ok { a with working := wb, master := mb }
    | none =>
      match w.localFiles masterPath with
      | none => .error (.ioError masterPath)
      | some mb => .ok { a with working := wb, master := mb }

/-- Embeds `newAnalyzer` (analyzer.go lines 24-39): start from the zero
`analyzer{}`, call `connect` when a host alias is provided (propagating
its error result, which `connect` in fact never produces), then `read`
the two files.  Go's guard `len(c.HostAlias) > 0` is written as
`c.HostAlias ≠ ""`, which holds for exactly the same strings. -/
def newAnalyzer (w : World) (c : Config) : Except CfgError analyzer :=
  let a0 : analyzer := {}
  if c.HostAlias ≠ "" then
    match a0.connect w c.HostAlias with
    | (_, some e) => .error e
    | (a1, none) => a1.read w c.WorkingPath c.MasterPath
  else
    a0.read w c.WorkingPath c.MasterPath

/-- Modelled from the spec: the JSON `KeyTree` data model (the JSON
extractor source is not available).  Each node is a scalar (string,
number, bool, null), a sequence of nodes, or a mapping from string keys
to nodes.  JSON numbers are embedded as integers; no claim concerns
fractional values. -/
inductive KeyTree where
  | str (s : String)
  | num (n : Int)
  | bool (b : Bool)
  | null
  | arr (elems : List KeyTree)
  | obj (fields : List (String × KeyTree))
  deriving Repr

/-- First binding of a key in a field list (mapping lookup by key). -/
def lookupField : List (String × KeyTree) → String → Option KeyTree
  | [], _ => none
  | (k, v) :: rest, key => if k = key then some v else lookupField rest key

/-- Child of a node under a mapping key: defined only on mappings. -/
def childByKey : KeyTree → String → Option KeyTree
  | .obj fs, k => lookupField fs k
  | _, _ => none

/-- Child of a node at a positional index: defined only on sequences. -/
def childByIdx : KeyTree → Nat → Option KeyTree
  | .arr xs, i => xs.get? i
  | _, _ => none

/-- Extends a dotted key path by one component. -/
def joinPath (p k : String) : String := if p = "" then k else p ++ "." ++ k

mutual

/-- Modelled from the spec: the JSON missing-key scan (the JSON analyzer
source is not available).  Walk the master tree depth-first; at each
mapping node, for every child key, check whether the corresponding node
exists at the same path in the working tree.  If absent, record the full
dotted key path and do not descend further into that subtree; if
present, recurse when the master child is itself a mapping or sequence,
and stop at scalars.  Sequences are walked by positional index with the
same presence rule. -/
def scanNode (path : String) (m w : KeyTree) : List String :=
  match m with
  | .obj fs => scanFields path fs w
  | .arr xs => scanElems path 0 xs w
  | _ => []

/-- Modelled from the spec: scan of the children of a master mapping
node against the corresponding working node. -/
def scanFields (path : String) (fs : List (String × KeyTree)) (w : KeyTree) :
    List String :=
  match fs with
  | [] => []
  | (k, child) :: rest =>
    (match childByKey w k with
     | none => [joinPath path k]
     | some wc =>
       match child with
       | .obj _ => scanNode (joinPath path k) child wc
       | .arr _ => scanNode (joinPath path k) child wc
       | _ => []) ++ scanFields path rest w

/-- Modelled from the spec: scan of the elements of a master sequence
node, by position, against the corresponding working node. -/
def scanElems (path : String) (i : Nat) (xs : List KeyTree) (w : KeyTree) :
    List String :=
  match xs with
  | [] => []
  | child :: rest =>
    (match childByIdx w i with
     | none => [joinPath path (toString i)]
     | some wc =>
       match child with
       | .obj _ => scanNode (joinPath path (toString i)) child wc
       | .arr _ => scanNode (joinPath path (toString i)) child wc
       | _ => []) ++ scanElems path (i + 1) rest w

end

/-- Keys of a mapping's field list. -/
def keysOfFields (fs : List (String × KeyTree)) : List String := fs.map Prod.fst

/-- Same key set, as sets (order-independent, mutual containment). -/
def sameKeySet (fs gs : List (String × KeyTree)) : Bool :=
  (keysOfFields fs).all (fun k => (keysOfFields gs).contains k) &&
  (keysOfFields gs).all (fun k => (keysOfFields fs).contains k)

mutual

/-- Modelled from the spec: deep structural JSON equality (the JSON
analyzer source is not available).  Mappings are equal iff they have the
same key set and every corresponding value is equal (order-independent);
sequences are equal iff they have the same length and positionally equal
elements; scalars are equal iff they have the same primitive kind and
value. -/
def keyTreeEqual : KeyTree → KeyTree → Bool
  | .str a, .str b => a == b
  | .num a, .num b => a == b
  | .bool a, .bool b => a == b
  | .null, .null => true
  | .arr xs, .arr ys => listTreeEqual xs ys
  | .obj fs, .obj gs => sameKeySet fs gs && fieldsMatch fs gs
  | _, _ => false

/-- Modelled from the spec: positional equality of sequence elements. -/
def listTreeEqual : List KeyTree → List KeyTree → Bool
  | [], [] => true
  | x :: xs, y :: ys => keyTreeEqual x y && listTreeEqual xs ys
  | _, _ => false

/-- Modelled from the spec: every field of the first mapping has a
corresponding equal value under the same key in the second. -/
def fieldsMatch : List (String × KeyTree) → List (String × KeyTree) → Bool
  | [], _ => true
  | (k, v) :: rest, gs =>
    (match lookupField gs k with
     | some u => keyTreeEqual v u
     | none => false) && fieldsMatch rest gs

end

/-- No string occurs twice in the list. -/
def noDupKeys : List String → Bool
  | [] => true
  | k :: ks => !(ks.contains k) && noDupKeys ks

mutual

/-- Well-formedness of a KeyTree as produced by a JSON parser: every
mapping node binds each key at most once. -/
def wfTree : KeyTree → Bool
  | .obj fs => noDupKeys (keysOfFields fs) && wfFields fs
  | .arr xs => wfElems xs
  | _ => true

/-- Well-formedness of the values of a field list. -/
def wfFields : List (String × KeyTree) → Bool
  | [] => true
  | (_, v) :: rest => wfTree v && wfFields rest

/-- Well-formedness of the elements of a sequence. -/
def wfElems : List KeyTree → Bool
  | [] => true
  | x :: xs => wfTree x && wfElems xs

end

/-- Whitespace skipper for the JSON parser. -/
def skipWs : List Char → List Char
  | c :: cs => if c = ' ' ∨ c = '\n' ∨ c = '\t' ∨ c = '\r' then skipWs cs else c :: cs
  | [] => []

/-- Translation of a JSON string escape character. -/
def escChar (c : Char) : Char :=
  if c = 'n' then '\n' else if c = 't' then '\t' else if c = 'r' then '\r' else c

/-- Body of a JSON string literal, after the opening quote: collects
characters until the closing quote, resolving backslash escapes. -/
def strBody : List Char → List Char → Option (String × List Char)
  | [], _ => none
  | '"' :: rest, acc => some (String.mk acc.reverse, rest)
  | '\\' :: c :: rest, acc => strBody rest (escChar c :: acc)
  | '\\' :: [], _ => none
  | c :: rest, acc => strBody rest (c :: acc)

/-- Longest leading run of decimal digits, and the remaining input. -/
def digitRun : List Char → List Char × List Char
  | c :: cs =>
    if c.isDigit then
      let (ds, rest) := digitRun cs
      (c :: ds, rest)
    else ([], c :: cs)
  | [] => ([], [])

/-- Numeric value of a run of decimal digits. -/
def natOfDigits (ds : List Char) : Nat :=
  ds.foldl (fun n c => n * 10 + (c.toNat - 48)) 0

mutual

/-- Modelled from the spec: recursive-descent parser for a standard JSON
value (the JSON extractor source is not available).  Fuel bounds the
recursion depth; `parseJson` supplies more fuel than any input can
consume, so running out of fuel only ever signals malformed input. -/
def parseVal : Nat → List Char → Option (KeyTree × List Char)
  | 0, _ => none
  | fuel + 1, input =>
    match skipWs input with
    | '{' :: rest => parseObjFields fuel rest []
    | '[' :: rest => parseArrElems fuel rest []
    | '"' :: rest =>
      match strBody rest [] with
      | some (s, r) => some (.str s, r)
      | none => none
    | 't' :: 'r' :: 'u' :: 'e' :: rest => some (.bool true, rest)
    | 'f' :: 'a' :: 'l' :: 's' :: 'e' :: rest => some (.bool false, rest)
    | 'n' :: 'u' :: 'l' :: 'l' :: rest => some (.null, rest)
    | '-' :: rest =>
      match digitRun rest with
      | ([], _) => none
      | (ds, r) => some (.num (-(natOfDigits ds : Int)), r)
    | c :: rest =>
      if c.isDigit then
        match digitRun (c :: rest) with
        | (ds, r) => some (.num (natOfDigits ds), r)
      else none
    | [] => none

/-- Modelled from the spec: fields of a JSON object, after the opening
brace or a separating comma. -/
def parseObjFields (fuel : Nat) (input : List Char) (acc : List (String × KeyTree)) :
    Option (KeyTree × List Char) :=
  match fuel with
  | 0 => none
  | fuel + 1 =>
    match skipWs input with
    | '}' :: rest => some (.obj acc.reverse, rest)
    | '"' :: rest =>
      match strBody rest [] with
      | none => none
      | some (k, r1) =>
        match skipWs r1 with
        | ':' :: r2 =>
          match parseVal fuel r2 with
          | none => none
          | some (v, r3) =>
            match skipWs r3 with
            | ',' :: r4 => parseObjFields fuel r4 ((k, v) :: acc)
            | '}' :: r4 => some (.obj ((k, v) :: acc).reverse, r4)
            | _ => none
        | _ => none
    | _ => none

/-- Modelled from the spec: elements of a JSON array, after the opening
bracket or a separating comma. -/
def parseArrElems (fuel : Nat) (input : List Char) (acc : List KeyTree) :
    Option (KeyTree × List Char) :=
  match fuel with
  | 0 => none
  | fuel + 1 =>
    match skipWs input with
    | ']' :: rest => some (.arr acc.reverse, rest)
    | _ =>
      match parseVal fuel input with
      | none => none
      | some (v, r1) =>
        match skipWs r1 with
        | ',' :: r2 => parseArrElems fuel r2 (v :: acc)
        | ']' :: r2 => some (.arr (v :: acc).reverse, r2)
        | _ => none

end

/-- Modelled from the spec: `parseJSON(bytes) -> KeyTree`, failing
(`none`) when the bytes are not a well-formed JSON document. -/
def parseJson (s : String) : Option KeyTree :=
  match parseVal (s.length + 1) s.data with
  | some (t, rest) => if skipWs rest = [] then some t else none
  | none => none

/-- The JSON analyzer: the base analyzer plus the two parsed trees. -/
structure jsonAnalyzer where
  base : analyzer
  workingTree : KeyTree
  masterTree : KeyTree

/-- Modelled from the spec: `newJsonAnalyzer` builds the base analyzer
(loading both byte buffers) and parses both buffers as JSON, aborting
with a `parseError` naming the offending file on malformed input (the
JSON analyzer source is not available). -/
def newJsonAnalyzer (w : World) (c : Config) : Except CfgError jsonAnalyzer :=
  match newAnalyzer w c with
  | .error e => .error e
  | .ok a =>
    match parseJson a.working with
    | none => .error (.parseError c.WorkingPath)
    | some wt =>
      match parseJson a.master with
      | none => .error (.parseError c.MasterPath)
      | some mt => .ok ⟨a, wt, mt⟩

/-- Modelled from the spec: the JSON analyzer's `scan` method fills the
`missing` list with the key paths present in the master tree and absent
from the working tree. -/
def jsonAnalyzer.scan (ja : jsonAnalyzer) : jsonAnalyzer :=
  { ja with base := { ja.base with missing := scanNode "" ja.masterTree ja.workingTree } }

/-- Modelled from the spec: the JSON analyzer's `equality` method
returns the deep structural equality verdict of the two trees.  Its Go
signature also carries an error slot (checked by `PrintJson`), which
this model never fills: the trees are already parsed. -/
def jsonAnalyzer.equality (ja : jsonAnalyzer) : Except CfgError Bool :=
  .ok (keyTreeEqual ja.workingTree ja.masterTree)

/-- Print events emitted by `PrintJson`/`PrintEnv`: the missing-key
report (working path and missing list), the "files are different"
notice (working and master paths), and the differing-key list printed by
`PrintEnv`. -/
inductive Output where
  | missingKeys (workingPath : String) (keys : List String)
  | filesDiffer (workingPath masterPath : String)
  | diffKeys (keys : List String)
  deriving Repr, DecidableEq

/-- Embeds `ScanJson` (analyzer.go lines 43-52): build the JSON
analyzer, run the scan, and return its missing list; on failure return
the nil list together with the error. -/
def ScanJson (w : World) (c : Config) : List String × Option CfgError :=
  match newJsonAnalyzer w c with
  | .error e => ([], some e)
  | .ok ja => ((ja.scan).base.missing, none)

/-- Embeds `PrintJson` (analyzer.go lines 56-79): build the JSON
analyzer and scan; when missing keys exist, print them and return nil;
otherwise run `equality` (propagating its error) and print the
"different" notice when the trees are unequal. -/
def PrintJson (w : World) (c : Config) : List Output × Option CfgError :=
  match newJsonAnalyzer w c with
  | .error e => ([], some e)
  | .ok ja =>
    let ja := ja.scan
    if ja.base.missing.length > 0 then
      ([.missingKeys c.WorkingPath ja.base.missing], none)
    else
      match ja.equality with
      | .error e => ([], some e)
      | .ok eq =>
        if !eq then ([.filesDiffer c.WorkingPath c.MasterPath], none)
        else ([], none)

/-- Value bound to a key in an Env KeySet. -/
def lookupStr : List (String × String) → String → Option String
  | [], _ => none
  | (k, v) :: rest, key => if k = key then some v else lookupStr rest key

/-- Insert-or-replace into an Env KeySet: a later occurrence of a key
overwrites the value in place, so the last occurrence wins while the
iteration order stays the insertion order of first occurrences. -/
def upsert : List (String × String) → String → String → List (String × String)
  | [], key, val => [(key, val)]
  | (k, v) :: rest, key, val =>
    if k = key then (k, val) :: rest else (k, v) :: upsert rest key val

/-- Splits a character stream on every occurrence of a separator
character, keeping empty groups (the single-character case of Go's
`strings.Split`). -/
def splitOnChar (sep : Char) : List Char → List (List Char)
  | [] => [[]]
  | c :: cs =>
    if c = sep then [] :: splitOnChar sep cs
    else
      match splitOnChar sep cs with
      | g :: gs => (c :: g) :: gs
      | [] => [[c]]

/-- Removes leading and trailing whitespace from a character list. -/
def trimChars (cs : List Char) : List Char :=
  ((cs.dropWhile Char.isWhitespace).reverse.dropWhile Char.isWhitespace).reverse

/-- Modelled from the spec: processing of one line of an Env file (the
Env extractor source is not available).  Blank lines, lines whose first
character is `#`, and lines without a `=` separator are skipped
silently; a valid line is split on the first `=`, both halves are
trimmed of surrounding whitespace, and the pair is recorded with
last-occurrence-wins semantics. -/
def envStep (acc : List (String × String)) (line : List Char) : List (String × String) :=
  if trimChars line = [] then acc
  else if line.head? = some '#' then acc
  else if line.contains '=' then
    match splitOnChar '=' line with
    | key :: rest =>
      upsert acc (String.mk (trimChars key))
        (String.mk (trimChars (List.intercalate ['='] rest)))
    | [] => acc
  else acc

/-- Modelled from the spec: `parseEnv(bytes) -> KeySet`, never failing —
the byte stream is split into lines and each line is processed by
`envStep`; malformed lines contribute nothing. -/
def parseEnv (s : String) : List (String × String) :=
  (splitOnChar '\n' s.data).foldl envStep []

/-- Modelled from the spec: the Env missing-key scan — every key of the
master KeySet absent from the working KeySet, in master order. -/
def envScan (working master : List (String × String)) : List String :=
  (master.filter (fun kv => (lookupStr working kv.1).isNone)).map Prod.fst

/-- Modelled from the spec: the Env diff — every key present in both
KeySets whose values differ (exact string equality, no coercion), in
master order. -/
def envDiff (working master : List (String × String)) : List String :=
  master.filterMap (fun kv =>
    match lookupStr working kv.1 with
    | some wv => if wv ≠ kv.2 then some kv.1 else none
    | none => none)

/-- The Env analyzer: the base analyzer plus the two parsed KeySets. -/
structure envAnalyzer where
  base : analyzer
  workingSet : List (String × String)
  masterSet : List (String × String)

/-- Modelled from the spec: `newEnvAnalyzer` builds the base analyzer
(loading both byte buffers) and parses both buffers as Env KeySets,
which never fails (the Env analyzer source is not available). -/
def newEnvAnalyzer (w : World) (c : Config) : Except CfgError envAnalyzer :=
  match newAnalyzer w c with
  | .error e => .error e
  | .ok a => .ok ⟨a, parseEnv a.working, parseEnv a.master⟩

/-- Modelled from the spec: the Env analyzer's `scan` method fills the
`missing` list with the master keys absent from the working KeySet, and
the `different` list (read by `PrintEnv` after `scan`) with the shared
keys whose values differ. -/
def envAnalyzer.scan (ea : envAnalyzer) : envAnalyzer :=
  { ea with base := { ea.base with
      missing := envScan ea.workingSet ea.masterSet,
      different := envDiff ea.workingSet ea.masterSet } }

/-- Embeds `ScanEnv` (analyzer.go lines 83-92): build the Env analyzer,
run the scan, and return its missing list; on failure return the nil
list together with the error. -/
def ScanEnv (w : World) (c : Config) : List String × Option CfgError :=
  match newEnvAnalyzer w c with
  | .error e => ([], some e)
  | .ok ea => ((ea.scan).base.missing, none)

/-- Embeds `PrintEnv` (analyzer.go lines 96-116): build the Env analyzer
and scan; when missing keys exist, print them and return nil; otherwise
print the "different" notice and the differing keys when the diff list
is non-empty. -/
def PrintEnv (w : World) (c : Config) : List Output × Option CfgError :=
  match newEnvAnalyzer w c with
  | .error e => ([], some e)
  | .ok ea =>
    let ea := ea.scan
    if ea.base.missing.length > 0 then
      ([.missingKeys c.WorkingPath ea.base.missing], none)
    else if ea.base.different.length > 0 then
      ([.filesDiffer c.WorkingPath c.MasterPath, .diffKeys ea.base.different], none)
    else ([], none)

/-- The master fetch route selected by the configuration: scp through
the host alias when one is given, a local read otherwise.  Used to state
failure claims uniformly over both routes. -/
def masterFetch (w : World) (c : Config) : Option String :=
  if c.HostAlias ≠ "" then w.scpFiles c.HostAlias c.MasterPath
  else w.localFiles c.MasterPath

/-- Example world for the concrete witnesses: a local file system with
an Env pair and a JSON pair, a host alias "prod" whose ssh probe fails,
and scp fetches for "prod" that return the master files. -/
def exWorld : World where
  localFiles := fun p =>
    if p = "working.env" then some "FOO=1"
    else if p = "working.json" then some "\x7b\"a\":1\x7d"
    else if p = "master.env" then some "FOO=1\nBAR=2"
    else if p = "master.json" then some "\x7b\"a\":1,\"b\":\x7b\"c\":2\x7d\x7d"
    else none
  sshOk := fun _ => false
  scpFiles := fun h p =>
    if h = "prod" then
      if p = "master.env" then some "FOO=1\nBAR=2"
      else if p = "master.json" then some "\x7b\"a\":1,\"b\":\x7b\"c\":2\x7d\x7d"
      else none
    else none

/-- The JSON analyzer value `newJsonAnalyzer` builds on `exWorld`'s
local JSON pair. -/
def jaEx : jsonAnalyzer :=
  ⟨{ working := "\x7b\"a\":1\x7d", master := "\x7b\"a\":1,\"b\":\x7b\"c\":2\x7d\x7d" },
   .obj [("a", .num 1)],
   .obj [("a", .num 1), ("b", .obj [("c", .num 2)])]⟩

/-- The Env analyzer value `newEnvAnalyzer` builds on `exWorld`'s local
Env pair. -/
def eaEx : envAnalyzer :=
  ⟨{ working := "FOO=1", master := "FOO=1\nBAR=2" },
   [("FOO", "1")],
   [("FOO", "1"), ("BAR", "2")]⟩

/-- The `read` method only ever fails with an `ioError`; it never
produces a `connectionError`. -/
theorem read_no_connectionError (w : World) (a : analyzer) (wp mp host : String) :
    analyzer.read w a wp mp ≠ .error (.connectionError host) := by
  unfold analyzer.read
  split
  · simp
  · split
    · split <;> simp
    · split <;> simp

/-- C2: `connect` swallows the ssh failure: the error value built by
`fmt.Errorf` inside `connect` is discarded and `connect` returns nil for
every host and every world, so `newAnalyzer` never fails because of a
connection failure and always proceeds to read the working file and
attempt the scp fetch of the master file (its result is exactly the
result of `read` on an analyzer holding the bash handle). -/
theorem connect_discards_ssh_error (w : World) (c : Config)
    (h : c.HostAlias ≠ "") :
    (∀ a : analyzer, (a.connect w c.HostAlias).2 = none) ∧
    newAnalyzer w c =
      analyzer.read w { bash := some c.HostAlias } c.WorkingPath c.MasterPath ∧
    ∀ host, newAnalyzer w c ≠ .error (.connectionError host) := by
  have hread : newAnalyzer w c =
      analyzer.read w { bash := some c.HostAlias } c.WorkingPath c.MasterPath := by
    unfold newAnalyzer
    rw [if_pos h]
    rfl
  refine ⟨fun a => rfl, hread, fun host => ?_⟩
  rw [hread]
  exact read_no_connectionError w _ _ _ host

/-- Witness for C2: in `exWorld` the ssh probe for "prod" fails, yet
`connect` returns nil and `newAnalyzer` goes on to `read`. -/
theorem connect_discards_ssh_error_witness :
    (analyzer.connect exWorld {} "prod").2 = none ∧
    newAnalyzer exWorld ⟨"working.env", "master.env", "prod"⟩ =
      analyzer.read exWorld { bash := some "prod" } "working.env" "master.env" := by
  have h := connect_discards_ssh_error exWorld
    ⟨"working.env", "master.env", "prod"⟩ (by decide)
  exact ⟨h.1 {}, h.2.1⟩

/-- C1 fails on the code: with the ssh probe for "prod" failing in
`exWorld`, `ScanEnv` and `ScanJson` do not return a connection error;
the swallowed failure lets them read both files and return scan output
(the missing-key lists) with a nil error. -/
theorem ssh_failure_still_yields_scan_output :
    exWorld.sshOk "prod" = false ∧
    ScanEnv exWorld ⟨"working.env", "master.env", "prod"⟩ = (["BAR"], none) ∧
    ScanJson exWorld ⟨"working.json", "master.json", "prod"⟩ = (["b"], none) :=
  ⟨rfl, by rfl, by rfl⟩

/-- A successful `read` takes the working bytes from the local file at
the working path and the master bytes from scp when a bash handle is
held, from the local file at the master path otherwise; the handle is
left unchanged. -/
theorem read_ok_sources (w : World) (a0 a : analyzer) (wp mp : String)
    (h : analyzer.read w a0 wp mp = .ok a) :
    w.localFiles wp = some a.working ∧ a.bash = a0.bash ∧
    (∀ host, a0.bash = some host → w.scpFiles host mp = some a.master) ∧
    (a0.bash = none → w.localFiles mp = some a.master) := by
  unfold analyzer.read at h
  split at h
  next hw => exact absurd h (by simp)
  next wb hw =>
    split at h
    next host hb =>
      split at h
      next hm => exact absurd h (by simp)
      next mb hm =>
        injection h with h2
        subst h2
        refine ⟨by simp [hw], by simp [hb], ?_, by simp [hb]⟩
        intro host1 hh
        rw [hb] at hh
        injection hh with hh
        subst hh
        simp [hm]
    next hb =>
      split at h
      next hm => exact absurd h (by simp)
      next mb hm =>
        injection h with h2
        subst h2
        refine ⟨by simp [hw], by simp [hb], ?_, by simp [hm]⟩
        intro host1 hh
        rw [hb] at hh
        exact absurd hh (by simp)

/-- C4: on success, the working bytes always come from the local file at
the working path; the master bytes come from the scp fetch addressed by
the master path when a host alias is present, and from the local file at
the master path when it is absent. -/
theorem newAnalyzer_routes_sources (w : World) (c : Config) (a : analyzer)
    (h : newAnalyzer w c = .ok a) :
    (c.HostAlias ≠ "" →
      w.localFiles c.WorkingPath = some a.working ∧
      w.scpFiles c.HostAlias c.MasterPath = some a.master ∧
      a.bash = some c.HostAlias) ∧
    (c.HostAlias = "" →
      w.localFiles c.WorkingPath = some a.working ∧
      w.localFiles c.MasterPath = some a.master ∧
      a.bash = none) := by
  constructor
  · intro hh
    unfold newAnalyzer at h
    rw [if_pos hh] at h
    have h' : analyzer.read w { bash := some c.HostAlias } c.WorkingPath c.MasterPath
        = .ok a := h
    have hs := read_ok_sources w _ a _ _ h'
    exact ⟨hs.1, hs.2.2.1 c.HostAlias rfl, hs.2.1⟩
  · intro hh
    unfold newAnalyzer at h
    rw [if_neg (by simp [hh])] at h
    have h' : analyzer.read w ({} : analyzer) c.WorkingPath c.MasterPath = .ok a := h
    have hs := read_ok_sources w _ a _ _ h'
    exact ⟨hs.1, hs.2.2.2 rfl, hs.2.1⟩

/-- Witness for C4 on the remote route of `exWorld`. -/
theorem newAnalyzer_routes_sources_witness :
    exWorld.localFiles "working.env" = some "FOO=1" ∧
    exWorld.scpFiles "prod" "master.env" = some "FOO=1\nBAR=2" := by
  have h := (newAnalyzer_routes_sources exWorld ⟨"working.env", "master.env", "prod"⟩
    { working := "FOO=1", master := "FOO=1\nBAR=2", bash := some "prod" }
    (by rfl)).1 (by decide)
  exact ⟨h.1, h.2.1⟩

/-- Characterization of `newAnalyzer`'s failure on unreadable files: a
missing working file aborts with its path, and a failing master fetch
(scp or local, per the configured route) aborts with the master path. -/
theorem newAnalyzer_read_failure (w : World) (c : Config) :
    (w.localFiles c.WorkingPath = none →
      newAnalyzer w c = .error (.ioError c.WorkingPath)) ∧
    (w.localFiles c.WorkingPath ≠ none → masterFetch w c = none →
      newAnalyzer w c = .error (.ioError c.MasterPath)) := by
  by_cases hh : c.HostAlias = ""
  · constructor
    · intro hw
      unfold newAnalyzer
      rw [if_neg (by simp [hh])]
      unfold analyzer.read
      rw [hw]
    · intro hw hm
      unfold masterFetch at hm
      rw [if_neg (by simp [hh])] at hm
      unfold newAnalyzer
      rw [if_neg (by simp [hh])]
      unfold analyzer.read
      cases hw2 : w.localFiles c.WorkingPath with
      | none => exact absurd hw2 hw
      | some wb => rw [hm]
  · constructor
    · intro hw
      unfold newAnalyzer
      rw [if_pos hh]
      show analyzer.read w { bash := some c.HostAlias } c.WorkingPath c.MasterPath = _
      unfold analyzer.read
      rw [hw]
    · intro hw hm
      unfold masterFetch at hm
      rw [if_pos hh] at hm
      unfold newAnalyzer
      rw [if_pos hh]
      show analyzer.read w { bash := some c.HostAlias } c.WorkingPath c.MasterPath = _
      unfold analyzer.read
      cases hw2 : w.localFiles c.WorkingPath with
      | none => exact absurd hw2 hw
      | some wb =>
        show (match w.scpFiles c.HostAlias c.MasterPath with
              | none => Except.error (CfgError.ioError c.MasterPath)
              | some mb => Except.ok
                  ({ working := wb, master := mb, bash := some c.HostAlias } : analyzer))
            = Except.error (CfgError.ioError c.MasterPath)
        rw [hm]

/-- C5: when reading the working path or fetching the master path fails,
`ScanJson` and `ScanEnv` abort at once with an error embedding the
offending path, returning the nil missing-key list alongside it — no
partial scan result accompanies an error. -/
theorem scan_read_failure_aborts (w : World) (c : Config) :
    (w.localFiles c.WorkingPath = none →
      ScanJson w c = ([], some (.ioError c.WorkingPath)) ∧
      ScanEnv w c = ([], some (.ioError c.WorkingPath))) ∧
    (w.localFiles c.WorkingPath ≠ none → masterFetch w c = none →
      ScanJson w c = ([], some (.ioError c.MasterPath)) ∧
      ScanEnv w c = ([], some (.ioError c.MasterPath))) := by
  have h := newAnalyzer_read_failure w c
  constructor
  · intro hw
    constructor
    · unfold ScanJson newJsonAnalyzer
      rw [h.1 hw]
    · unfold ScanEnv newEnvAnalyzer
      rw [h.1 hw]
  · intro hw hm
    constructor
    · unfold ScanJson newJsonAnalyzer
      rw [h.2 hw hm]
    · unfold ScanEnv newEnvAnalyzer
      rw [h.2 hw hm]

/-- Witness for C5: a missing working file and a missing local master
file each abort with the matching path and the nil list. -/
theorem scan_read_failure_aborts_witness :
    ScanJson exWorld ⟨"absent.json", "master.json", ""⟩ =
      ([], some (.ioError "absent.json")) ∧
    ScanEnv exWorld ⟨"working.env", "absent.env", ""⟩ =
      ([], some (.ioError "absent.env")) := by
  refine ⟨((scan_read_failure_aborts exWorld ⟨"absent.json", "master.json", ""⟩).1
    (by rfl)).1, ((scan_read_failure_aborts exWorld ⟨"working.env", "absent.env", ""⟩).2
    (by decide) (by rfl)).2⟩

/-- C9: Env parsing never fails — a line without a `=` separator, a
blank line, or a line whose first character is `#` is skipped silently:
it leaves the KeySet unchanged at any point of the fold, so it
contributes no key to `parseEnv`'s result (and hence none to the
missing or diff output computed from the KeySets). -/
theorem parseEnv_skips_malformed (acc : List (String × String)) (line : List Char)
    (h : trimChars line = [] ∨ line.head? = some '#' ∨ line.contains '=' = false) :
    envStep acc line = acc ∧
    (∀ pre post : List (List Char),
      (pre ++ line :: post).foldl envStep [] = (pre ++ post).foldl envStep []) ∧
    ∀ s : String, parseEnv s = (splitOnChar '\n' s.data).foldl envStep [] := by
  have hstep : ∀ acc2 : List (String × String), envStep acc2 line = acc2 := by
    intro acc2
    unfold envStep
    rcases h with h1 | h2 | h3
    · rw [if_pos h1]
    · by_cases h1 : trimChars line = []
      · rw [if_pos h1]
      · rw [if_neg h1, if_pos h2]
    · by_cases h1 : trimChars line = []
      · rw [if_pos h1]
      · by_cases h2 : line.head? = some '#'
        · rw [if_neg h1, if_pos h2]
        · rw [if_neg h1, if_neg h2, if_neg (by rw [h3]; simp)]
  refine ⟨hstep acc, ?_, fun s => rfl⟩
  intro pre post
  rw [List.foldl_append, List.foldl_cons, hstep, ← List.foldl_append]

/-- Witness for C9: a comment line is inert in a concrete Env stream. -/
theorem parseEnv_skips_malformed_witness :
    envStep [("FOO", "1")] "# BAR=2".data = [("FOO", "1")] ∧
    (["FOO=1".data] ++ "# BAR=2".data :: ["BAR=2".data]).foldl envStep [] =
      (["FOO=1".data] ++ ["BAR=2".data]).foldl envStep [] := by
  have h := parseEnv_skips_malformed [("FOO", "1")] "# BAR=2".data
    (Or.inr (Or.inl (by rfl)))
  exact ⟨h.1, h.2.1 ["FOO=1".data] ["BAR=2".data]⟩

/-- A binding found by `lookupStr` is a member of the KeySet. -/
theorem lookupStr_mem (l : List (String × String)) (k v : String)
    (h : lookupStr l k = some v) : (k, v) ∈ l := by
  induction l with
  | nil => simp [lookupStr] at h
  | cons p rest ih =>
    obtain ⟨k1, v1⟩ := p
    unfold lookupStr at h
    by_cases hk : k1 = k
    · rw [if_pos hk] at h
      injection h with h
      subst hk; subst h
      exact List.mem_cons_self _ _
    · rw [if_neg hk] at h
      exact List.mem_cons_of_mem _ (ih h)

/-- A key with a binding in the KeySet is found by `lookupStr`. -/
theorem lookupStr_isSome_of_mem (l : List (String × String)) (k v : String)
    (h : (k, v) ∈ l) : (lookupStr l k).isSome := by
  induction l with
  | nil => simp at h
  | cons p rest ih =>
    obtain ⟨k1, v1⟩ := p
    unfold lookupStr
    by_cases hk : k1 = k
    · rw [if_pos hk]; rfl
    · rw [if_neg hk]
      rcases List.mem_cons.mp h with h1 | h1
      · injection h1 with ha hb
        exact absurd ha.symm hk
      · exact ih h1

/-- In a KeySet with pairwise distinct keys, `lookupStr` returns exactly
the value bound next to the key. -/
theorem lookupStr_of_mem_nodup (l : List (String × String)) (k v : String)
    (hnd : (l.map Prod.fst).Nodup) (h : (k, v) ∈ l) :
    lookupStr l k = some v := by
  induction l with
  | nil => simp at h
  | cons p rest ih =>
    obtain ⟨k1, v1⟩ := p
    rw [List.map_cons, List.nodup_cons] at hnd
    unfold lookupStr
    rcases List.mem_cons.mp h with h1 | h1
    · injection h1 with ha hb
      subst ha; subst hb
      rw [if_pos rfl]
    · by_cases hk : k1 = k
      · exfalso
        subst hk
        exact hnd.1 (List.mem_map.mpr ⟨(k1, v), h1, rfl⟩)
      · rw [if_neg hk]
        exact ih hnd.2 h1

/-- C7: the Env diff is empty exactly when every key present in both
KeySets maps to equal string values (exact string equality), and every
key it reports is present in both KeySets — a key missing from either
side never appears in the diff. -/
theorem envDiff_empty_iff (working master : List (String × String))
    (hnd : (master.map Prod.fst).Nodup) :
    (envDiff working master = [] ↔
      ∀ k mv wv, lookupStr master k = some mv → lookupStr working k = some wv →
        wv = mv) ∧
    ∀ k, k ∈ envDiff working master →
      (lookupStr working k).isSome ∧ (lookupStr master k).isSome := by
  constructor
  · constructor
    · intro hemp k mv wv hm hw
      by_contra hne
      have hmem := lookupStr_mem master k mv hm
      unfold envDiff at hemp
      have h2 := List.filterMap_eq_nil_iff.mp hemp (k, mv) hmem
      simp only [hw] at h2
      rw [if_pos hne] at h2
      exact Option.some_ne_none _ h2
    · intro hall
      unfold envDiff
      apply List.filterMap_eq_nil_iff.mpr
      rintro ⟨k, mv⟩ hkv
      cases hw : lookupStr working k with
      | none => simp [hw]
      | some wv =>
        have heq := hall k mv wv (lookupStr_of_mem_nodup master k mv hnd hkv) hw
        simp [hw, heq]
  · intro k hk
    unfold envDiff at hk
    rw [List.mem_filterMap] at hk
    obtain ⟨⟨k1, mv⟩, hmem, hf⟩ := hk
    cases hw : lookupStr working k1 with
    | none => simp [hw] at hf
    | some wv =>
      simp only [hw] at hf
      by_cases hne : wv = mv
      · simp [hne] at hf
      · rw [if_pos hne] at hf
        injection hf with hf
        subst hf
        exact ⟨by rw [hw]; rfl, lookupStr_isSome_of_mem master k1 mv hmem⟩

/-- Witness for C7: the key "BAR" reported by a concrete diff is present
in both KeySets. -/
theorem envDiff_empty_iff_witness :
    (lookupStr [("FOO", "1"), ("BAR", "3")] "BAR").isSome ∧
    (lookupStr [("FOO", "1"), ("BAR", "2")] "BAR").isSome := by
  exact (envDiff_empty_iff [("FOO", "1"), ("BAR", "3")] [("FOO", "1"), ("BAR", "2")]
    (by decide)).2 "BAR" (by decide)

/-- `scanFields` distributes over concatenation of master field lists. -/
theorem scanFields_append (path : String) (xs ys : List (String × KeyTree)) (w : KeyTree) :
    scanFields path (xs ++ ys) w = scanFields path xs w ++ scanFields path ys w := by
  induction xs with
  | nil => simp [scanFields]
  | cons p rest ih =>
    obtain ⟨k, child⟩ := p
    rw [List.cons_append]
    simp only [scanFields]
    rw [ih, List.append_assoc]

/-- C6: a master mapping key that does not resolve in the working tree
contributes exactly its own (topmost) dotted path to the scan: the
missing subtree is never descended into — the output is unchanged when
the subtree below the missing key is replaced by anything else, so no
descendant of the missing path is reported — and on the spec's example
pair the scan returns ["b"], not ["b.c"]. -/
theorem scan_reports_topmost_missing (path : String) (pre rest : List (String × KeyTree))
    (k : String) (child : KeyTree) (w : KeyTree)
    (h : childByKey w k = none) :
    scanNode path (.obj (pre ++ (k, child) :: rest)) w =
      scanFields path pre w ++ joinPath path k :: scanFields path rest w ∧
    scanNode path (.obj (pre ++ (k, child) :: rest)) w =
      scanNode path (.obj (pre ++ (k, .null) :: rest)) w ∧
    scanNode "" (.obj [("a", .num 1), ("b", .obj [("c", .num 2)])])
        (.obj [("a", .num 1)]) = ["b"] := by
  have key : ∀ c2 : KeyTree, scanNode path (.obj (pre ++ (k, c2) :: rest)) w =
      scanFields path pre w ++ joinPath path k :: scanFields path rest w := by
    intro c2
    show scanFields path (pre ++ (k, c2) :: rest) w = _
    rw [scanFields_append]
    congr 1
    simp only [scanFields, h]
    rfl
  exact ⟨key child, (key child).trans (key .null).symm, by rfl⟩

/-- Witness for C6 on the spec's example pair. -/
theorem scan_reports_topmost_missing_witness :
    scanNode "" (.obj ([("a", .num 1)] ++ ("b", .obj [("c", .num 2)]) :: []))
        (.obj [("a", .num 1)]) =
      scanFields "" [("a", .num 1)] (.obj [("a", .num 1)]) ++
        joinPath "" "b" :: scanFields "" [] (.obj [("a", .num 1)]) := by
  exact (scan_reports_topmost_missing "" [("a", .num 1)] [] "b"
    (.obj [("c", .num 2)]) (.obj [("a", .num 1)]) (by rfl)).1

/-- In a field list with pairwise distinct keys, `lookupField` returns
exactly the value bound next to the key. -/
theorem mem_lookupField_of_nodup (fs : List (String × KeyTree)) (k : String) (v : KeyTree)
    (hnd : noDupKeys (keysOfFields fs) = true) (h : (k, v) ∈ fs) :
    lookupField fs k = some v := by
  induction fs with
  | nil => simp at h
  | cons p rest ih =>
    obtain ⟨k1, v1⟩ := p
    have hnd' : (keysOfFields rest).contains k1 = false ∧
        noDupKeys (keysOfFields rest) = true := by
      simpa [keysOfFields, noDupKeys, Bool.and_eq_true, Bool.not_eq_true'] using hnd
    unfold lookupField
    rcases List.mem_cons.mp h with h1 | h1
    · injection h1 with ha hb
      subst ha; subst hb
      rw [if_pos rfl]
    · by_cases hk : k1 = k
      · exfalso
        subst hk
        have hm : k1 ∈ keysOfFields rest := List.mem_map.mpr ⟨(k1, v), h1, rfl⟩
        have hc : (keysOfFields rest).contains k1 = true := List.elem_iff.mpr hm
        rw [hnd'.1] at hc
        exact Bool.noConfusion hc
      · rw [if_neg hk]
        exact ih hnd'.2 h1

/-- A field list always has the same key set as itself. -/
theorem sameKeySet_refl (fs : List (String × KeyTree)) : sameKeySet fs fs = true := by
  unfold sameKeySet
  rw [Bool.and_eq_true]
  constructor <;>
  · rw [List.all_eq_true]
    intro k hk
    exact List.elem_iff.mpr hk

/-- `fieldsMatch` holds whenever every field of the first list is found
with a self-equal value in the second. -/
theorem fieldsMatch_of (fs gs : List (String × KeyTree))
    (hlook : ∀ k v, (k, v) ∈ fs → lookupField gs k = some v)
    (hrefl : ∀ k v, (k, v) ∈ fs → keyTreeEqual v v = true) :
    fieldsMatch fs gs = true := by
  induction fs with
  | nil => simp [fieldsMatch]
  | cons p rest ih =>
    obtain ⟨k1, v1⟩ := p
    simp only [fieldsMatch]
    rw [hlook k1 v1 (List.mem_cons_self _ _), Bool.and_eq_true]
    exact ⟨hrefl k1 v1 (List.mem_cons_self _ _),
      ih (fun k v hm => hlook k v (List.mem_cons_of_mem _ hm))
         (fun k v hm => hrefl k v (List.mem_cons_of_mem _ hm))⟩

mutual

/-- C8: deep structural JSON equality is reflexive on every well-formed
tree (mappings equal iff same key set with equal corresponding values,
order-independent; sequences positionally; scalars by kind and value). -/
theorem keyTreeEqual_refl : ∀ t : KeyTree, wfTree t = true → keyTreeEqual t t = true
  | .str s, _ => by simp [keyTreeEqual]
  | .num n, _ => by simp [keyTreeEqual]
  | .bool b, _ => by simp [keyTreeEqual]
  | .null, _ => by simp [keyTreeEqual]
  | .arr xs, h => by
    have hx := listTreeEqual_refl xs (by simpa [wfTree] using h)
    simp [keyTreeEqual, hx]
  | .obj fs, h => by
    have h1 : noDupKeys (keysOfFields fs) = true ∧ wfFields fs = true := by
      simpa [wfTree, Bool.and_eq_true] using h
    have hmatch := fieldsMatch_of fs fs
      (fun k v hm => mem_lookupField_of_nodup fs k v h1.1 hm)
      (treeRefl_of_fields fs h1.2)
    simp [keyTreeEqual, sameKeySet_refl, hmatch]

/-- Reflexivity of `listTreeEqual` on well-formed elements. -/
theorem listTreeEqual_refl : ∀ xs : List KeyTree, wfElems xs = true →
    listTreeEqual xs xs = true
  | [], _ => by simp [listTreeEqual]
  | x :: xs, h => by
    have h1 : wfTree x = true ∧ wfElems xs = true := by
      simpa [wfElems, Bool.and_eq_true] using h
    have hx := keyTreeEqual_refl x h1.1
    have hxs := listTreeEqual_refl xs h1.2
    simp [listTreeEqual, hx, hxs]

/-- Every value stored in a well-formed field list is self-equal. -/
theorem treeRefl_of_fields : ∀ fs : List (String × KeyTree), wfFields fs = true →
    ∀ k v, (k, v) ∈ fs → keyTreeEqual v v = true
  | [], _, k, v, h => by simp at h
  | (k1, v1) :: rest, hwf, k, v, h => by
    have h1 : wfTree v1 = true ∧ wfFields rest = true := by
      simpa [wfFields, Bool.and_eq_true] using hwf
    rcases List.mem_cons.mp h with h2 | h2
    · injection h2 with ha hb
      subst hb
      exact keyTreeEqual_refl v h1.1
    · exact treeRefl_of_fields rest h1.2 k v h2

end

/-- Witness for C8 on a concrete well-formed tree. -/
theorem keyTreeEqual_refl_witness :
    keyTreeEqual (.obj [("a", .num 1), ("b", .arr [.str "x", .null, .bool true])])
      (.obj [("a", .num 1), ("b", .arr [.str "x", .null, .bool true])]) = true :=
  keyTreeEqual_refl _ (by rfl)

/-- Unfolding of `PrintJson` once the JSON analyzer is built. -/
theorem PrintJson_ok (w : World) (c : Config) (ja : jsonAnalyzer)
    (hja : newJsonAnalyzer w c = .ok ja) :
    PrintJson w c =
      if ja.scan.base.missing.length > 0 then
        ([.missingKeys c.WorkingPath ja.scan.base.missing], none)
      else if !(keyTreeEqual ja.workingTree ja.masterTree) then
        ([.filesDiffer c.WorkingPath c.MasterPath], none)
      else ([], none) := by
  unfold PrintJson
  rw [hja]
  rfl

/-- Unfolding of `PrintEnv` once the Env analyzer is built. -/
theorem PrintEnv_ok (w : World) (c : Config) (ea : envAnalyzer)
    (hea : newEnvAnalyzer w c = .ok ea) :
    PrintEnv w c =
      if ea.scan.base.missing.length > 0 then
        ([.missingKeys c.WorkingPath ea.scan.base.missing], none)
      else if ea.scan.base.different.length > 0 then
        ([.filesDiffer c.WorkingPath c.MasterPath, .diffKeys ea.scan.base.different], none)
      else ([], none) := by
  unfold PrintEnv
  rw [hea]

/-- C3: missing keys take priority over value differences in both
`PrintJson` and `PrintEnv`: whenever the scan reports at least one
missing key, exactly the missing-key report is printed and the operation
returns nil without reporting any equality/diff outcome; only when the
missing list is empty is the equality (JSON) or diff (Env) result
reported. -/
theorem print_missing_short_circuits (w : World) (c : Config) :
    (∀ ja : jsonAnalyzer, newJsonAnalyzer w c = .ok ja → ja.scan.base.missing ≠ [] →
      PrintJson w c = ([.missingKeys c.WorkingPath ja.scan.base.missing], none)) ∧
    (∀ ja : jsonAnalyzer, newJsonAnalyzer w c = .ok ja → ja.scan.base.missing = [] →
      PrintJson w c = ((if keyTreeEqual ja.workingTree ja.masterTree then []
        else [.filesDiffer c.WorkingPath c.MasterPath]), none)) ∧
    (∀ ea : envAnalyzer, newEnvAnalyzer w c = .ok ea → ea.scan.base.missing ≠ [] →
      PrintEnv w c = ([.missingKeys c.WorkingPath ea.scan.base.missing], none)) ∧
    (∀ ea : envAnalyzer, newEnvAnalyzer w c = .ok ea → ea.scan.base.missing = [] →
      PrintEnv w c = ((if ea.scan.base.different = [] then []
        else [.filesDiffer c.WorkingPath c.MasterPath,
              .diffKeys ea.scan.base.different]), none)) := by
  refine ⟨?_, ?_, ?_, ?_⟩
  · intro ja hja hmiss
    rw [PrintJson_ok w c ja hja, if_pos (List.length_pos.mpr hmiss)]
  · intro ja hja hmiss
    rw [PrintJson_ok w c ja hja, if_neg (by simp [hmiss])]
    cases hkeq : keyTreeEqual ja.workingTree ja.masterTree <;> simp [hkeq]
  · intro ea hea hmiss
    rw [PrintEnv_ok w c ea hea, if_pos (List.length_pos.mpr hmiss)]
  · intro ea hea hmiss
    rw [PrintEnv_ok w c ea hea, if_neg (by simp [hmiss])]
    by_cases hd : ea.scan.base.different = []
    · simp [hd]
    · rw [if_pos (List.length_pos.mpr hd), if_neg hd]

/-- Witness for C3: on `exWorld`'s local pairs both print operations
report only the missing keys. -/
theorem print_missing_short_circuits_witness :
    PrintJson exWorld ⟨"working.json", "master.json", ""⟩ =
      ([.missingKeys "working.json" ["b"]], none) ∧
    PrintEnv exWorld ⟨"working.env", "master.env", ""⟩ =
      ([.missingKeys "working.env" ["BAR"]], none) := by
  exact ⟨(print_missing_short_circuits exWorld _).1 jaEx (by rfl)
      (show (["b"] : List String) ≠ [] by simp),
    (print_missing_short_circuits exWorld _).2.2.1 eaEx (by rfl)
      (show (["BAR"] : List String) ≠ [] by simp)⟩

/-- C10: once analyzer construction succeeds, `PrintJson` and `PrintEnv`
return nil even when keys are missing or the files differ (discrepancies
are only printed); conversely, a non-nil error from either operation is
exactly a load/parse/connection failure from analyzer construction. -/
theorem print_error_only_from_load (w : World) (c : Config) :
    (∀ ja : jsonAnalyzer, newJsonAnalyzer w c = .ok ja → (PrintJson w c).2 = none) ∧
    (∀ e, (PrintJson w c).2 = some e → newJsonAnalyzer w c = .error e) ∧
    (∀ ea : envAnalyzer, newEnvAnalyzer w c = .ok ea → (PrintEnv w c).2 = none) ∧
    (∀ e, (PrintEnv w c).2 = some e → newEnvAnalyzer w c = .error e) := by
  have hjson : ∀ ja : jsonAnalyzer, newJsonAnalyzer w c = .ok ja →
      (PrintJson w c).2 = none := by
    intro ja hja
    rw [PrintJson_ok w c ja hja]
    split
    · rfl
    · split <;> rfl
  have henv : ∀ ea : envAnalyzer, newEnvAnalyzer w c = .ok ea →
      (PrintEnv w c).2 = none := by
    intro ea hea
    rw [PrintEnv_ok w c ea hea]
    split
    · rfl
    · split <;> rfl
  refine ⟨hjson, ?_, henv, ?_⟩
  · intro e he
    cases hj : newJsonAnalyzer w c with
    | error e2 =>
      unfold PrintJson at he
      rw [hj] at he
      simp at he
      subst he
      rfl
    | ok ja =>
      rw [hjson ja hj] at he
      exact Option.noConfusion he
  · intro e he
    cases hj : newEnvAnalyzer w c with
    | error e2 =>
      unfold PrintEnv at he
      rw [hj] at he
      simp at he
      subst he
      rfl
    | ok ea =>
      rw [henv ea hj] at he
      exact Option.noConfusion he

/-- Witness for C10: on `exWorld`'s local pairs — both with reported
discrepancies — the print operations return nil. -/
theorem print_error_only_from_load_witness :
    (PrintJson exWorld ⟨"working.json", "master.json", ""⟩).2 = none ∧
    (PrintEnv exWorld ⟨"working.env", "master.env", ""⟩).2 = none := by
  exact ⟨(print_error_only_from_load exWorld _).1 jaEx (by rfl),
    (print_error_only_from_load exWorld _).2.2.1 eaEx (by rfl)⟩
